import Mathlib

/-!
Verification of the `ChessBoard` utility (src/chess/chess_board.py):
algebraic-notation conversion, per-piece pseudo-legal move enumeration,
one-hot vector representation and the pairwise Euclidean distance matrix.

Python exceptions (ValueError from `list.index` / `int`, IndexError from
sequence indexing) are modelled by `Option`: `none` means the call raises.
Python's negative-index semantics for sequence indexing are modelled
explicitly. Machine floats are modelled by real numbers.
-/

/-- The file letters, `self.files` in the source. -/
def files : List Char := ['a', 'b', 'c', 'd', 'e', 'f', 'g', 'h']

/-- Python `list.index(c)`: index of the first occurrence of `c`,
raising (`none`) when `c` is absent. -/
def list_index (l : List Char) (c : Char) : Option Nat :=
  match l with
  | [] => none
  | x :: xs => if x = c then some 0 else (list_index xs c).map (· + 1)

/-- Python `int()` applied to a one-character string: the digit's value,
raising (`none`) on a non-digit character. -/
def char_int (c : Char) : Option Int :=
  if c.isDigit then some ((c.toNat - '0'.toNat : Nat) : Int) else none

/-- `ChessBoard.algebraic_to_coordinates`: reads `square[0]` and `square[1]`
(raising when the string is shorter), looks the file letter up in `files`
(raising when absent), parses the rank character with `int` (raising on a
non-digit) and returns `(8 - rank - 1, file_idx)`. -/
def algebraic_to_coordinates (square : String) : Option (Int × Int) :=
  match square.data with
  | file :: rank :: _ =>
    (list_index files file).bind fun file_idx =>
      (char_int rank).map fun r => (8 - r - 1, (file_idx : Int))
  | _ => none

/-- Python sequence indexing `l[i]`: nonnegative indices below the length,
negative indices counted from the end, IndexError (`none`) otherwise. -/
def py_get (l : List Char) (i : Int) : Option Char :=
  if 0 ≤ i ∧ i < l.length then l.get? i.toNat
  else if -(l.length : Int) ≤ i ∧ i < 0 then l.get? ((l.length : Int) + i).toNat
  else none

/-- `ChessBoard.coordinates_to_algebraic`: `rank = 8 - row - 1`, result
string `f"{files[col]}{rank}"`. Only the indexing `files[col]` can raise;
`rank` is formatted as a (possibly negative) decimal integer. -/
def coordinates_to_algebraic (row col : Int) : Option String :=
  let rank := 8 - row - 1
  (py_get files col).map fun f => String.mk [f] ++ toString rank

/-- Pawn branch of `get_piece_moves`: forward one step when on the board;
additionally two steps from row 6 (White, uppercase) or row 1 (Black,
lowercase), when on the board. Candidate coordinates, in source order. -/
def pawn_candidates (piece : Char) (row col : Int) : List (Int × Int) :=
  let direction : Int := if piece.isUpper then -1 else 1
  (if 0 ≤ row + direction ∧ row + direction < 8 then [(row + direction, col)] else [])
    ++ (if (piece.isUpper ∧ row = 6) ∨ (piece.isLower ∧ row = 1) then
          if 0 ≤ row + 2 * direction ∧ row + 2 * direction < 8 then
            [(row + 2 * direction, col)]
          else []
        else [])

/-- Rook branch: for each `i` in `range(8)`, append `(i, col)` when
`i ≠ row` and `(row, i)` when `i ≠ col`, in source order. -/
def rook_candidates (row col : Int) : List (Int × Int) :=
  (List.range 8).flatMap fun i =>
    (if (i : Int) ≠ row then [((i : Int), col)] else [])
      ++ (if (i : Int) ≠ col then [(row, (i : Int))] else [])

/-- The fixed knight offset table from the source. -/
def knight_offsets : List (Int × Int) :=
  [(-2, -1), (-2, 1), (-1, -2), (-1, 2), (1, -2), (1, 2), (2, -1), (2, 1)]

/-- Knight branch: the eight offsets, filtered to the board. -/
def knight_candidates (row col : Int) : List (Int × Int) :=
  knight_offsets.filterMap fun d =>
    if 0 ≤ row + d.1 ∧ row + d.1 < 8 ∧ 0 ≤ col + d.2 ∧ col + d.2 < 8 then
      some (row + d.1, col + d.2)
    else none

/-- Bishop branch: all `(i, j)` in `range(8) × range(8)` with
`abs(i - row) == abs(j - col)` and `(i, j) ≠ (row, col)`, in source order. -/
def bishop_candidates (row col : Int) : List (Int × Int) :=
  (List.range 8).flatMap fun i =>
    (List.range 8).filterMap fun j =>
      if ((i : Int) - row).natAbs = ((j : Int) - col).natAbs
          ∧ ((i : Int) ≠ row ∨ (j : Int) ≠ col) then
        some ((i : Int), (j : Int))
      else none

/-- King branch: the unit offsets minus `(0,0)`, filtered to the board. -/
def king_candidates (row col : Int) : List (Int × Int) :=
  [(-1 : Int), 0, 1].flatMap fun dr =>
    [(-1 : Int), 0, 1].filterMap fun dc =>
      if dr = 0 ∧ dc = 0 then none
      else if 0 ≤ row + dr ∧ row + dr < 8 ∧ 0 ≤ col + dc ∧ col + dc < 8 then
        some (row + dr, col + dc)
      else none

/-- The `if/elif` dispatch of `get_piece_moves` on `piece.lower()`, at the
level of destination coordinates. The queen branch concatenates the rook
and bishop results, exactly what the source's two recursive calls
`get_piece_moves('r', position)` / `get_piece_moves('b', position)` produce
(re-parsing the same `position` yields the same `(row, col)`). An unmatched
piece code falls through every branch and yields the initial empty list. -/
def piece_candidates (piece : Char) (row col : Int) : List (Int × Int) :=
  if piece.toLower = 'p' then pawn_candidates piece row col
  else if piece.toLower = 'r' then rook_candidates row col
  else if piece.toLower = 'n' then knight_candidates row col
  else if piece.toLower = 'b' then bishop_candidates row col
  else if piece.toLower = 'q' then rook_candidates row col ++ bishop_candidates row col
  else if piece.toLower = 'k' then king_candidates row col
  else []

/-- `ChessBoard.get_piece_moves`: parse the origin (its exceptions
propagate), enumerate the branch's destination coordinates, and convert
each through `coordinates_to_algebraic` (whose exceptions propagate, via
`mapM`). -/
def get_piece_moves (piece : Char) (position : String) : Option (List String) :=
  (algebraic_to_coordinates position).bind fun rc =>
    (piece_candidates piece rc.1 rc.2).mapM fun p => coordinates_to_algebraic p.1 p.2

/-- Python list element assignment `l[i] = v`, with negative-index
semantics and IndexError (`none`) out of range. -/
def py_set (l : List Int) (i : Int) (v : Int) : Option (List Int) :=
  if 0 ≤ i ∧ i < l.length then some (l.set i.toNat v)
  else if -(l.length : Int) ≤ i ∧ i < 0 then some (l.set ((l.length : Int) + i).toNat v)
  else none

/-- `ChessBoard.get_vector_representation`: a 64-entry zero vector with
entry `row * 8 + col` set to 1, where `(row, col)` parses the position. -/
def get_vector_representation (position : String) : Option (List Int) :=
  (algebraic_to_coordinates position).bind fun rc =>
    py_set (List.replicate 64 0) (rc.1 * 8 + rc.2) 1

/-- Row of flat square index `i`: `i // 8` in the source. -/
def row_of (k : Fin 64) : Int := (k.val / 8 : Nat)

/-- Column of flat square index `i`: `i % 8` in the source. -/
def col_of (k : Fin 64) : Int := (k.val % 8 : Nat)

/-- The squared Euclidean distance `(row1 - row2)**2 + (col1 - col2)**2`
between flat square indices. -/
def sq_dist (i j : Fin 64) : Int :=
  (row_of i - row_of j) ^ 2 + (col_of i - col_of j) ^ 2

/-- `ChessBoard.get_distance_matrix` entry `(i, j)`:
`np.sqrt((row1 - row2)**2 + (col1 - col2)**2)`, floats modelled as reals. -/
noncomputable def get_distance_matrix (i j : Fin 64) : ℝ :=
  Real.sqrt ((sq_dist i j : Int) : ℝ)

/-- The algebraic name of in-range coordinates `(row, col)`; for such
coordinates `coordinates_to_algebraic` always succeeds. -/
def square_name (row col : Fin 8) : String :=
  (coordinates_to_algebraic (row.val : Int) (col.val : Int)).getD ""

/-- The algebraic name of arbitrary integer coordinates, empty on failure. -/
def square_of (r c : Int) : String := (coordinates_to_algebraic r c).getD ""

/-- The rook destination set as the specification words it: every square
sharing the origin's row plus every square sharing its column, the origin
itself excluded. -/
def rook_spec_set (row col : Fin 8) : Finset String :=
  ((Finset.univ : Finset (Fin 8 × Fin 8)).filter
      fun p => (p.1 = row ∨ p.2 = col) ∧ p ≠ (row, col)).image
    fun p => square_name p.1 p.2

lemma square_name_round_trip (row col : Fin 8) :
    algebraic_to_coordinates (square_name row col)
      = some ((row.val : Int), (col.val : Int)) := by
  revert row col; decide

lemma list_index_eq_none (l : List Char) (c : Char) :
    list_index l c = none ↔ c ∉ l := by
  induction l with
  | nil => simp [list_index]
  | cons x xs ih =>
    by_cases h : x = c
    · simp [list_index, h]
    · simp [list_index, h, Option.map_eq_none', ih, Ne.symm h]

lemma char_int_eq_none (c : Char) : char_int c = none ↔ ¬ c.isDigit := by
  unfold char_int; split <;> simp_all

lemma sq_dist_le (i j : Fin 64) : sq_dist i j ≤ 98 := by
  revert i j; decide

lemma sqrt_ninety_eight : Real.sqrt 98 = 7 * Real.sqrt 2 := by
  rw [show (98 : ℝ) = 7 ^ 2 * 2 by norm_num, Real.sqrt_mul (by positivity),
    Real.sqrt_sq (by norm_num)]

/-- Claim C1, counterexample: the claimed fixed point
`algebraic_to_coordinates("a1") == (7,0)` is false — the source computes
`rank_idx = 8 - 1 - 1 = 6`, so "a1" maps to `(6, 0)`. -/
theorem C1_counterexample :
    algebraic_to_coordinates "a1" = some (6, 0)
    ∧ ¬ algebraic_to_coordinates "a1" = some (7, 0) := by decide

/-- Claim C1 (amended): the fixed points the code actually satisfies,
following its formula `row = 8 - rank - 1`:
`algebraic_to_coordinates("e4") == (3,4)`,
`coordinates_to_algebraic(3,4) == "e4"`,
`algebraic_to_coordinates("a1") == (6,0)` and
`algebraic_to_coordinates("h8") == (-1,7)`. -/
theorem C1_amended_fixed_points :
    algebraic_to_coordinates "e4" = some (3, 4)
    ∧ coordinates_to_algebraic 3 4 = some "e4"
    ∧ algebraic_to_coordinates "a1" = some (6, 0)
    ∧ algebraic_to_coordinates "h8" = some (-1, 7) := by decide

/-- Claim C2: the two converters are exact inverses. For every `(row, col)`
in `[0,8) × [0,8)`, parsing the produced name gives back `(row, col)`; and
for every valid two-character square (file letter in a..h, rank digit in
1..8), converting the parsed coordinates back returns the same string. -/
theorem C2_round_trip :
    (∀ row col : Fin 8,
      (coordinates_to_algebraic (row.val : Int) (col.val : Int)).bind
          algebraic_to_coordinates
        = some ((row.val : Int), (col.val : Int)))
    ∧ (∀ fi ri : Fin 8,
      (algebraic_to_coordinates
          (String.mk [files.getD fi.val 'a', Char.ofNat ('1'.toNat + ri.val)])).bind
          (fun rc => coordinates_to_algebraic rc.1 rc.2)
        = some (String.mk [files.getD fi.val 'a', Char.ofNat ('1'.toNat + ri.val)])) := by
  constructor <;> decide
/-- Claim C3, counterexample: the claim demands a failure whenever the
second character is a digit outside 1..8, but `algebraic_to_coordinates`
accepts "a9" without error, returning the out-of-range row `8 - 9 - 1 = -2`
— `int('9')` succeeds and the code never range-checks the rank. -/
theorem C3_counterexample :
    algebraic_to_coordinates "a9" = some (-2, 0)
    ∧ ¬ algebraic_to_coordinates "a9" = none := by decide

/-- Claim C3 (amended): `algebraic_to_coordinates` fails exactly when the
input has fewer than two characters, the first character is not a file
letter in a..h, or the second character is not a decimal digit at all; a
digit rank outside 1..8 (such as '9' or '0') is accepted without error.
In particular "z9" fails. -/
theorem C3_amended_failure :
    (∀ (f r : Char) (rest : List Char),
      algebraic_to_coordinates (String.mk (f :: r :: rest)) = none
        ↔ f ∉ files ∨ ¬ r.isDigit)
    ∧ (∀ s : String, s.data.length < 2 → algebraic_to_coordinates s = none)
    ∧ algebraic_to_coordinates "z9" = none := by
  refine ⟨?_, ?_, by decide⟩
  · intro f r rest
    show ((list_index files f).bind fun file_idx =>
        (char_int r).map fun v => (8 - v - 1, (file_idx : Int))) = none
      ↔ f ∉ files ∨ ¬ r.isDigit
    cases h1 : list_index files f with
    | none =>
      simp only [Option.none_bind]
      simp [(list_index_eq_none files f).mp h1]
    | some i =>
      have hf : f ∈ files := by
        by_contra hc
        rw [← list_index_eq_none files f] at hc
        simp [h1] at hc
      simp [Option.map_eq_none', char_int_eq_none, hf]
  · intro s h
    obtain ⟨data⟩ := s
    match data with
    | [] => rfl
    | [x] => rfl
    | x :: y :: rest => simp at h; omega

theorem C3_amended_failure_witness : algebraic_to_coordinates "a" = none :=
  C3_amended_failure.2.1 "a" (by decide)

/-- Claim C4, counterexample: the claim demands a failure whenever the row
is outside `[0,8)`, but `coordinates_to_algebraic(8, 0)` returns the string
"a-1" without error — the code never checks the row, it only indexes
`files[col]`. -/
theorem C4_counterexample :
    coordinates_to_algebraic 8 0 = some "a-1"
    ∧ ¬ coordinates_to_algebraic 8 0 = none := by decide

/-- Claim C4 (amended): `coordinates_to_algebraic` fails exactly when
`col < -8` or `col ≥ 8` (an IndexError from `files[col]`, with Python's
negative indexing accepting `col ∈ [-8,-1]`); the row is never checked, and
any row yields a string with rank `8 - row - 1`. For `(row, col)` inside
`[0,8) × [0,8)` it therefore returns the algebraic string normally. -/
theorem C4_amended_failure :
    ∀ row col : Int,
      coordinates_to_algebraic row col = none ↔ col < -8 ∨ 8 ≤ col := by
  intro row col
  show (py_get files col).map _ = none ↔ _
  rw [Option.map_eq_none']
  unfold py_get
  have hlen : (files.length : Int) = 8 := by decide
  split_ifs with h1 h2
  · have : files.get? col.toNat ≠ none := by
      rw [ne_eq, List.get?_eq_none]
      omega
    simp only [this, false_iff]
    omega
  · have : files.get? ((files.length : Int) + col).toNat ≠ none := by
      rw [ne_eq, List.get?_eq_none]
      omega
    simp only [this, false_iff]
    omega
  · simp only [true_iff]
    omega
/-- Claim C5, counterexample: a piece code outside {P,N,B,R,Q,K} does not
raise — `get_piece_moves('x', "e4")` falls through every branch of the
dispatch and returns the initial empty move list normally. -/
theorem C5_counterexample :
    get_piece_moves 'x' "e4" = some []
    ∧ ¬ get_piece_moves 'x' "e4" = none := by decide

/-- Claim C5 (amended): for every valid origin square, a piece code whose
letter (case-insensitive) is outside {P,N,B,R,Q,K} is silently recovered:
`get_piece_moves` returns an empty move list and raises no error. -/
theorem C5_amended_unknown_piece :
    ∀ (row col : Fin 8) (piece : Char),
      piece.toLower ≠ 'p' → piece.toLower ≠ 'r' → piece.toLower ≠ 'n' →
      piece.toLower ≠ 'b' → piece.toLower ≠ 'q' → piece.toLower ≠ 'k' →
      get_piece_moves piece (square_name row col) = some [] := by
  intro row col piece hp hr hn hb hq hk
  unfold get_piece_moves
  rw [square_name_round_trip]
  simp only [piece_candidates, if_neg hp, if_neg hr, if_neg hn, if_neg hb,
    if_neg hq, if_neg hk]
  rfl

theorem C5_amended_unknown_piece_witness :
    get_piece_moves 'x' (square_name ⟨0, by omega⟩ ⟨0, by omega⟩) = some [] :=
  C5_amended_unknown_piece ⟨0, by omega⟩ ⟨0, by omega⟩ 'x' (by decide) (by decide)
    (by decide) (by decide) (by decide) (by decide)

/-- Claim C6: for every valid origin `(row, col)`, the pawn move list is
exactly the one-step square (White `(row-1, col)`, Black `(row+1, col)`)
when that row is on the board — silently omitted otherwise — plus the
two-step square exactly when the origin row is 6 for White ('P') or 1 for
Black ('p'). -/
theorem C6_pawn_moves :
    ∀ row col : Fin 8,
      get_piece_moves 'P' (square_name row col)
        = some ((if 1 ≤ (row.val : Int) then
              [square_of ((row.val : Int) - 1) (col.val : Int)] else [])
            ++ (if (row.val : Int) = 6 then
              [square_of ((row.val : Int) - 2) (col.val : Int)] else []))
      ∧ get_piece_moves 'p' (square_name row col)
        = some ((if (row.val : Int) + 1 < 8 then
              [square_of ((row.val : Int) + 1) (col.val : Int)] else [])
            ++ (if (row.val : Int) = 1 then
              [square_of ((row.val : Int) + 2) (col.val : Int)] else [])) := by
  decide

/-- Claim C7: for every valid origin, the queen move set equals the union
of the rook and bishop move sets from the same origin, those two sets are
disjoint, and the queen list carries no duplicates. -/
theorem C7_queen_union :
    ∀ row col : Fin 8,
      ¬ get_piece_moves 'Q' (square_name row col) = none
      ∧ ((get_piece_moves 'Q' (square_name row col)).getD []).toFinset
          = ((get_piece_moves 'R' (square_name row col)).getD []).toFinset
            ∪ ((get_piece_moves 'B' (square_name row col)).getD []).toFinset
      ∧ Disjoint ((get_piece_moves 'R' (square_name row col)).getD []).toFinset
          ((get_piece_moves 'B' (square_name row col)).getD []).toFinset
      ∧ ((get_piece_moves 'Q' (square_name row col)).getD []).Nodup := by
  decide

/-- Claim C8: for every valid origin, the rook move set is exactly the
squares sharing the origin's row plus those sharing its column, the origin
excluded, hence always exactly 14 moves; in particular the rook at "a1"
gets 14 moves. -/
theorem C8_rook_moves :
    (∀ row col : Fin 8,
      ¬ get_piece_moves 'R' (square_name row col) = none
      ∧ ((get_piece_moves 'R' (square_name row col)).getD []).toFinset
          = rook_spec_set row col
      ∧ ((get_piece_moves 'R' (square_name row col)).getD []).length = 14)
    ∧ ((get_piece_moves 'R' "a1").getD []).length = 14 := by
  constructor
  · decide
  · decide
/-- Claim C9: every entry `(i, j)` of the distance matrix equals
`sqrt((row_i - row_j)^2 + (col_i - col_j)^2)` with `row_k = k / 8` and
`col_k = k % 8`; the matrix is symmetric; the diagonal is zero; and the
maximum entry equals `7 * sqrt 2` — every entry is bounded by it and the
corner pair `(0, 63)` attains it. -/
theorem C9_distance_matrix :
    (∀ i j : Fin 64,
      get_distance_matrix i j
        = Real.sqrt ((((i.val / 8 : Nat) : ℝ) - ((j.val / 8 : Nat) : ℝ)) ^ 2
            + (((i.val % 8 : Nat) : ℝ) - ((j.val % 8 : Nat) : ℝ)) ^ 2))
    ∧ (∀ i j : Fin 64, get_distance_matrix i j = get_distance_matrix j i)
    ∧ (∀ i : Fin 64, get_distance_matrix i i = 0)
    ∧ (∀ i j : Fin 64, get_distance_matrix i j ≤ 7 * Real.sqrt 2)
    ∧ get_distance_matrix ⟨0, by omega⟩ ⟨63, by omega⟩ = 7 * Real.sqrt 2 := by
  refine ⟨?_, ?_, ?_, ?_, ?_⟩
  · intro i j
    unfold get_distance_matrix sq_dist row_of col_of
    congr 1
    simp only [Int.cast_add, Int.cast_pow, Int.cast_sub, Int.cast_natCast]
  · intro i j
    unfold get_distance_matrix
    congr 1
    rw [Int.cast_inj]
    unfold sq_dist
    ring
  · intro i
    unfold get_distance_matrix
    rw [show sq_dist i i = 0 by unfold sq_dist; ring]
    simp
  · intro i j
    unfold get_distance_matrix
    calc Real.sqrt ((sq_dist i j : Int) : ℝ)
        ≤ Real.sqrt 98 := by
          apply Real.sqrt_le_sqrt
          exact_mod_cast sq_dist_le i j
      _ = 7 * Real.sqrt 2 := sqrt_ninety_eight
  · unfold get_distance_matrix
    rw [show sq_dist ⟨0, by omega⟩ ⟨63, by omega⟩ = 98 by decide]
    rw [show (((98 : Int) : ℝ)) = (98 : ℝ) by norm_num]
    exact sqrt_ninety_eight

/-- Claim C10: for every `(row, col)` in `[0,8) × [0,8)`, the vector
representation of the corresponding square is a length-64 vector whose
entry at index `row * 8 + col` is 1 and whose other 63 entries are 0. -/
theorem C10_one_hot :
    ∀ row col : Fin 8,
      ¬ get_vector_representation (square_name row col) = none
      ∧ ((get_vector_representation (square_name row col)).getD []).length = 64
      ∧ ∀ k : Fin 64,
          ((get_vector_representation (square_name row col)).getD []).getD k.val 0
            = if k.val = row.val * 8 + col.val then 1 else 0 := by
  decide
